import Mathlib

/-!
Shallow embedding of the reddit-comment-tracker acquisition/ingestion
engine (src/backend/database.py, src/backend/reddit_scraper.py,
src/app.py) and proofs of the spec claims about it.

The SQLite tables are modelled as lists of rows; every operation that
reads the wall clock takes the clock value as an explicit argument.
-/

namespace Tracker

/-- A row of the `posts` table (database.py, init_db). -/
structure PostRow where
  id : String
  title : String
  subreddit : String
  url : String
  created_utc : Int
  first_seen_at : String
deriving DecidableEq, Repr

/-- A row of the `comments` table, including the migrated columns
`sentiment` (default 'neutral') and `reply_status` (default 'needs_reply'). -/
structure CommentRow where
  id : String
  post_id : String
  author : String
  body : String
  created_utc : Int
  parent_id : Option String
  score : Int
  first_seen_at : String
  sentiment : String
  reply_status : String
deriving DecidableEq, Repr

/-- A row of the `scrape_log` table. -/
structure ScrapeLogRow where
  id : Nat
  started_at : String
  completed_at : Option String
  posts_found : Nat
  new_comments_found : Nat
  status : String
  error_message : Option String
  email_sent : Nat
deriving DecidableEq, Repr

/-- The persistent store (the three tables the core touches). -/
structure DB where
  posts : List PostRow
  comments : List CommentRow
  scrape_log : List ScrapeLogRow
deriving DecidableEq, Repr

/-- The dict passed to `insert_post`. -/
structure PostData where
  id : String
  title : String
  subreddit : String
  url : String
  created_utc : Int
deriving DecidableEq, Repr

/-- The dict passed to `insert_comment`; `author`, `parent_id` and `score`
are looked up with `.get` (so they may be absent). -/
structure CommentData where
  id : String
  post_id : String
  author : Option String
  body : String
  created_utc : Int
  parent_id : Option String
  score : Option Int
deriving DecidableEq, Repr

/-- The row `insert_post` writes for `post_data` at clock value `now`. -/
def postRow (p : PostData) (now : String) : PostRow :=
  { id := p.id, title := p.title, subreddit := p.subreddit,
    url := p.url, created_utc := p.created_utc, first_seen_at := now }

/-- The row `insert_comment` writes for `comment_data` at clock value
`now`: absent `author` defaults to `"[deleted]"`, absent `score` to `0`,
and the unspecified columns take their schema defaults
(`sentiment = 'neutral'`, `reply_status = 'needs_reply'`). -/
def commentRow (c : CommentData) (now : String) : CommentRow :=
  { id := c.id, post_id := c.post_id, author := c.author.getD "[deleted]",
    body := c.body, created_utc := c.created_utc, parent_id := c.parent_id,
    score := c.score.getD 0, first_seen_at := now,
    sentiment := "neutral", reply_status := "needs_reply" }

/-- `insert_post` (database.py:87): `INSERT OR IGNORE` keyed on the
primary key `id`; returns `True` iff a row was inserted. -/
def insert_post (p : PostData) (now : String) (db : DB) : Bool × DB :=
  if db.posts.any (fun r => r.id == p.id) then
    (false, db)
  else
    (true, { db with posts := db.posts ++ [postRow p now] })

/-- `insert_comment` (database.py:126): `INSERT OR IGNORE` keyed on the
primary key `id`. `OR IGNORE` does not apply to the `FOREIGN KEY
(post_id) REFERENCES posts(id)` constraint (enabled by
`PRAGMA foreign_keys = ON` in `get_db`), so a genuinely new comment whose
post is absent raises `sqlite3.IntegrityError`, modelled as `.error`;
the table is left unchanged in that case. -/
def insert_comment (c : CommentData) (now : String) (db : DB) :
    Except String Bool × DB :=
  if db.comments.any (fun r => r.id == c.id) then
    (.ok false, db)
  else if db.posts.any (fun r => r.id == c.post_id) then
    (.ok true, { db with comments := db.comments ++ [commentRow c now] })
  else
    (.error "FOREIGN KEY constraint failed", db)

/-- `update_comment_sentiment` (database.py:204). -/
def update_comment_sentiment (comment_id sentiment : String) (db : DB) : DB :=
  { db with comments := db.comments.map (fun r =>
      if r.id == comment_id then { r with sentiment := sentiment } else r) }

/-- `update_comment_reply_status` (database.py:212). -/
def update_comment_reply_status (comment_id reply_status : String) (db : DB) : DB :=
  { db with comments := db.comments.map (fun r =>
      if r.id == comment_id then { r with reply_status := reply_status } else r) }

/-- First row of `comments` with the given id (the row `UPDATE ... WHERE
id = ?` addresses; ids are a primary key so at most one exists). -/
def findComment (db : DB) (comment_id : String) : Option CommentRow :=
  db.comments.find? (fun r => r.id == comment_id)

/-- The next AUTOINCREMENT id of `scrape_log`: strictly larger than every
existing id. -/
def nextLogId (db : DB) : Nat :=
  (db.scrape_log.map (fun r => r.id)).foldr max 0 + 1

/-- `log_scrape_start` (database.py:338): inserts a `running` row and
returns its id. -/
def log_scrape_start (now : String) (db : DB) : Nat × DB :=
  (nextLogId db, { db with scrape_log := db.scrape_log ++
    [{ id := nextLogId db, started_at := now, completed_at := none,
       posts_found := 0, new_comments_found := 0, status := "running",
       error_message := none, email_sent := 0 }] })

/-- `log_scrape_end` (database.py:352): `UPDATE scrape_log SET ... WHERE
id = ?`. -/
def log_scrape_end (log_id : Nat) (posts_found new_comments_found : Nat)
    (status : String) (error_message : Option String) (email_sent : Bool)
    (now : String) (db : DB) : DB :=
  { db with scrape_log := db.scrape_log.map (fun r =>
      if r.id == log_id then
        { r with
          completed_at := some now
          posts_found := posts_found
          new_comments_found := new_comments_found
          status := status
          error_message := error_message
          email_sent := if email_sent then 1 else 0 }
      else r) }

/-- Does `pat` start the character list `s`? -/
def charPrefix : List Char → List Char → Bool
  | [], _ => true
  | _ :: _, [] => false
  | a :: as, b :: bs => a == b && charPrefix as bs

/-- Does `sub` occur somewhere in `s`? -/
def charContains : List Char → List Char → Bool
  | [], sub => charPrefix sub []
  | ch :: rest, sub => charPrefix sub (ch :: rest) || charContains rest sub

/-- Python's `sub in s` substring test. -/
def containsSub (s sub : String) : Bool :=
  charContains s.toList sub.toList

/-- Replace every non-overlapping occurrence of `pat` (non-empty in all
uses) by `repl`, left to right — Python's `str.replace`. The fuel is the
input length, enough since each step consumes at least one character. -/
def charReplaceAux (pat repl : List Char) : Nat → List Char → List Char
  | 0, s => s
  | fuel + 1, s =>
      match s with
      | [] => []
      | ch :: rest =>
          if charPrefix pat s && !pat.isEmpty then
            repl ++ charReplaceAux pat repl fuel (s.drop pat.length)
          else ch :: charReplaceAux pat repl fuel rest

/-- Python's `s.replace(pat, repl)` (for non-empty `pat`). -/
def strReplace (s pat repl : String) : String :=
  String.mk (charReplaceAux pat.toList repl.toList s.toList.length s.toList)

/-- The hint `run_scrape` appends to a block error before logging it
(reddit_scraper.py:410). -/
def blockHint (error_msg : String) : String :=
  if containsSub error_msg "403" then
    error_msg ++ " — Reddit may be blocking requests from cloud IPs. " ++
      "Set REDDIT_CLIENT_ID and REDDIT_CLIENT_SECRET to use the official API instead."
  else error_msg

/-- `run_scrape` (reddit_scraper.py:384). The selected strategy is passed
as its outcome: `.ok (posts_found, new_comments)` when it returns, and
`.error msg` when it raises (`msg` = `str(e)`). The function brackets the
strategy with `log_scrape_start`/`log_scrape_end`; on the error path it
logs `status='error'` with the (possibly hinted) message and re-raises
the original exception. -/
def run_scrape (strategy : Except String (Nat × Nat))
    (nowStart nowEnd : String) (db : DB) :
    Except String (Nat × Nat) × DB :=
  let (log_id, db1) := log_scrape_start nowStart db
  match strategy with
  | .ok (posts_found, new_comments) =>
      (.ok (posts_found, new_comments),
       log_scrape_end log_id posts_found new_comments "success" none false nowEnd db1)
  | .error e =>
      (.error e,
       log_scrape_end log_id 0 0 "error" (some (blockHint e)) false nowEnd db1)

/-- A comment dict in a sync-upload payload: the `insert_comment` fields
plus the optional `reply_status` override (`comment.get('reply_status')`).
`none` models a missing key, `some ""` an empty (falsy) value. -/
structure SyncCommentData where
  data : CommentData
  reply_status : Option String
deriving DecidableEq, Repr

/-- Truthiness test `comment.get('reply_status') and
comment['reply_status'] != 'needs_reply'` (app.py:499). -/
def syncOverride (rs : Option String) : Bool :=
  match rs with
  | none => false
  | some s => s != "" && s != "needs_reply"

/-- The `reply_status` reconciliation of one uploaded comment
(app.py:498-500): when the override is truthy and differs from the
default, apply it unconditionally. -/
def applyOverride (c : SyncCommentData) (db : DB) : DB :=
  if syncOverride c.reply_status then
    update_comment_reply_status c.data.id (c.reply_status.getD "") db
  else db

/-- The comment loop of `api_sync_upload` (app.py:495-500): insert each
comment (counting the new ones) and apply any non-default `reply_status`
override unconditionally. An `IntegrityError` from `insert_comment`
propagates and aborts the loop. -/
def syncInsertComments (comments : List SyncCommentData) (now : String)
    (acc : Nat) (db : DB) : Except String Nat × DB :=
  match comments with
  | [] => (.ok acc, db)
  | c :: rest =>
      match insert_comment c.data now db with
      | (.error e, db1) => (.error e, db1)
      | (.ok isNew, db1) =>
          let acc1 := if isNew then acc + 1 else acc
          syncInsertComments rest now acc1 (applyOverride c db1)

/-- `api_sync_upload` (app.py:470): after auth and payload checks, log a
scrape start, insert every post, run the comment loop, finalize the log
as a success, and answer `(posts_synced, new_comments)` where
`posts_synced = len(posts)`. -/
def api_sync_upload (posts : List PostData) (comments : List SyncCommentData)
    (nowStart nowEnd : String) (db : DB) :
    Except String (Nat × Nat) × DB :=
  match syncInsertComments comments nowStart 0
      (posts.foldl (fun d p => (insert_post p nowStart d).2)
        ((log_scrape_start nowStart db).2)) with
  | (.error e, db3) => (.error e, db3)
  | (.ok new_comments, db3) =>
      (.ok (posts.length, new_comments),
       log_scrape_end (log_scrape_start nowStart db).1 posts.length
         new_comments "success" none false nowEnd db3)

/-! ### Post discovery from comment history (reddit_scraper.py:85) -/

/-- The fields `_discover_posts_from_comments` reads from a comment item
of a comment-history page (each with `.get(..., '')`, so absent fields
are the empty string). -/
structure RawComment where
  link_id : String
  permalink : String
  link_title : String
  subreddit : String
deriving DecidableEq, Repr

/-- One page of the paginated comment-history endpoint:
`data.children` and the `data.after` cursor. -/
structure HistoryPage where
  children : List RawComment
  after : Option String
deriving DecidableEq, Repr

/-- The minimal post metadata discovery stores per post id. -/
structure PostInfo where
  permalink : String
  title : String
  subreddit : String
deriving DecidableEq, Repr

/-- Python's `'/'`-strip of a permalink: drop leading and trailing
slashes, as `permalink.strip('/')` does. -/
def stripSlashes (s : String) : String :=
  String.mk (((s.toList.dropWhile (fun ch => ch == '/')).reverse.dropWhile
    (fun ch => ch == '/')).reverse)

/-- Split a character list on a separator — Python's `str.split(sep)`:
`"" → [""]`, adjacent separators yield empty segments. -/
def splitChar (sep : Char) : List Char → List (List Char)
  | [] => [[]]
  | ch :: rest =>
      match splitChar sep rest with
      | [] => [[]]
      | grp :: grps =>
          if ch == sep then [] :: grp :: grps else (ch :: grp) :: grps

/-- `permalink.strip('/').split('/')`. -/
def permalinkParts (permalink : String) : List String :=
  (splitChar '/' (stripSlashes permalink).toList).map (fun l => String.mk l)

/-- Lookup in the insertion-ordered `discovered` dict. -/
def dictLookup (d : List (String × PostInfo)) (k : String) : Option PostInfo :=
  (d.find? (fun kv => kv.1 == k)).map (fun kv => kv.2)

/-- The entry stored for a discovered post: the comment's own permalink
truncated to its first five path segments
(`'/' + '/'.join(parts[:5]) + '/'`), plus `link_title`/`subreddit`. -/
def mkInfo (c : RawComment) : PostInfo :=
  { permalink :=
      "/" ++ String.intercalate "/" ((permalinkParts c.permalink).take 5) ++ "/",
    title := c.link_title, subreddit := c.subreddit }

/-- The body of discovery's inner `for item in children` loop
(reddit_scraper.py:106-124): record the first occurrence of each
`link_id`, with the post permalink rebuilt from the first five segments
of the comment's own permalink. -/
def discoverStep (d : List (String × PostInfo)) (c : RawComment) :
    List (String × PostInfo) :=
  if c.link_id != "" && (dictLookup d c.link_id).isNone then
    if (permalinkParts c.permalink).length ≥ 5 then
      d ++ [(c.link_id, mkInfo c)]
    else d
  else d

/-- The page loop of `_discover_posts_from_comments`: up to 5 pages,
stopping early on an empty page or a missing `after` cursor. The
`pages` argument lists the pages the endpoint returns for the successive
cursors. -/
def discoverLoop : Nat → List HistoryPage → List (String × PostInfo) →
    List (String × PostInfo)
  | 0, _, d => d
  | _ + 1, [], d => d
  | fuel + 1, p :: rest, d =>
      if p.children.isEmpty then d
      else
        let d1 := p.children.foldl discoverStep d
        match p.after with
        | none => d1
        | some _ => discoverLoop fuel rest d1

/-- `_discover_posts_from_comments` (reddit_scraper.py:85), as a function
of the comment-history pages the endpoint serves. -/
def discover_posts_from_comments (pages : List HistoryPage) :
    List (String × PostInfo) :=
  discoverLoop 5 pages []

/-! ### Comment tree crawler (reddit_scraper.py:219) -/

/-- A node of a reply tree: the `kind` discriminator and the `data`
fields `_process_comments` reads. `replies = []` models both a missing /
falsy `replies` value and an empty listing. -/
inductive RNode where
  | node (kind name : String) (author : Option String) (body : Option String)
      (created_utc : Int) (parent_id : Option String) (score : Option Int)
      (replies : List RNode)

def RNode.kind : RNode → String
  | .node k _ _ _ _ _ _ _ => k

def RNode.name : RNode → String
  | .node _ n _ _ _ _ _ _ => n

def RNode.replies : RNode → List RNode
  | .node _ _ _ _ _ _ _ rs => rs

mutual

/-- One iteration of `_process_comments`' loop: skip non-`t1` nodes
(the "more" stubs), insert the comment, and recurse into truthy
`replies` with the same post id. An `IntegrityError` from
`insert_comment` propagates. -/
def processNode (postId now : String) (n : RNode) (db : DB) :
    Except String Nat × DB :=
  match n with
  | .node kind name author body created_utc parent_id score replies =>
    if kind == "t1" then
      match insert_comment
          { id := name, post_id := postId,
            author := some (author.getD "[deleted]"), body := body.getD "",
            created_utc := created_utc, parent_id := parent_id,
            score := some (score.getD 0) } now db with
      | (.error e, db1) => (.error e, db1)
      | (.ok isNew, db1) =>
          let base := if isNew then 1 else 0
          if replies.isEmpty then (.ok base, db1)
          else
            match processComments postId now replies db1 with
            | (.error e, db2) => (.error e, db2)
            | (.ok m, db2) => (.ok (base + m), db2)
    else (.ok 0, db)

/-- `_process_comments` (reddit_scraper.py:219): returns the count of
newly inserted comments for the listing. -/
def processComments (postId now : String) (nodes : List RNode) (db : DB) :
    Except String Nat × DB :=
  match nodes with
  | [] => (.ok 0, db)
  | n :: rest =>
      match processNode postId now n db with
      | (.error e, db1) => (.error e, db1)
      | (.ok k, db1) =>
          match processComments postId now rest db1 with
          | (.error e, db2) => (.error e, db2)
          | (.ok m, db2) => (.ok (k + m), db2)

end

mutual

/-- The `t1` nodes of a tree in the depth-first order `_process_comments`
visits them (a parent before its replies); non-`t1` nodes contribute
nothing, their subtrees included. -/
def nodeFlat (n : RNode) : List RNode :=
  match n with
  | .node kind name author body created_utc parent_id score replies =>
      if kind == "t1" then
        RNode.node kind name author body created_utc parent_id score replies ::
          listFlat replies
      else []

/-- Depth-first `t1` nodes of a listing. -/
def listFlat (nodes : List RNode) : List RNode :=
  match nodes with
  | [] => []
  | n :: rest => nodeFlat n ++ listFlat rest

end

/-! ### Fetch client (reddit_scraper.py:39, `_fetch_json`) -/

/-- What one `session.get(try_url)` yields: an HTTP status with a body,
or a `requests.exceptions.ConnectionError`. -/
inductive HttpResp where
  | status (code : Nat) (payload : String)
  | connError (msg : String)
deriving DecidableEq, Repr

/-- The errors `_fetch_json` can raise: an `HTTPError` (from the 403
branch, from `raise_for_status`, or the generic all-endpoints message)
or a propagated `ConnectionError`. -/
inductive FetchErr where
  | http (msg : String)
  | conn (msg : String)
deriving DecidableEq, Repr

/-- Verdict of the attempt loop for one URL variant. -/
inductive VariantVerdict where
  | success (payload : String)
  | fatal (e : FetchErr)
  | next (e : Option FetchErr)
deriving DecidableEq, Repr

/-- What `_fetch_json` did: the GET requests issued in order, the total
seconds slept in 429 backoff (`10 * (attempt + 1)` per 429), and the
outcome. -/
structure FetchResult where
  trace : List String
  backoff : Nat
  outcome : Except FetchErr String
deriving Repr

/-- The `for attempt in range(max_retries)` loop for one variant
(reddit_scraper.py:54-77). `http u a` is the response to the `a`-th
attempt at URL `u`. On 429: sleep `10 * (attempt + 1)` and retry. On
403: capture an `HTTPError` and break to the next variant. Any other
status `≥ 400` (and `< 600`): `raise_for_status` raises, uncaught — the
whole fetch aborts. A `ConnectionError` is caught and breaks to the next
variant. Otherwise the parsed body is returned. -/
def tryAttempts (http : String → Nat → HttpResp) (u : String) :
    Nat → Nat → List String × Nat × VariantVerdict
  | _, 0 => ([], 0, .next none)
  | attempt, remaining + 1 =>
      match http u attempt with
      | .status code payload =>
          if code == 429 then
            let (t, b, v) := tryAttempts http u (attempt + 1) remaining
            (u :: t, 10 * (attempt + 1) + b, v)
          else if code == 403 then
            ([u], 0, .next (some (.http
              ("403 Client Error: Blocked for url: " ++ u))))
          else if 400 ≤ code ∧ code < 600 then
            ([u], 0, .fatal (.http (toString code ++ " Error for url: " ++ u)))
          else ([u], 0, .success payload)
      | .connError msg => ([u], 0, .next (some (.conn msg)))

/-- The `for try_url in urls_to_try` loop plus the final raise
(reddit_scraper.py:53-82): variants in order, threading `last_error`;
when all fall through, raise the last captured error or the generic
`HTTPError` when none was captured. -/
def tryVariants (http : String → Nat → HttpResp) (maxRetries : Nat)
    (lastError : Option FetchErr) :
    List String → List String × Nat × Except FetchErr String
  | [] => ([], 0, .error (lastError.getD (.http "All Reddit endpoints returned errors")))
  | u :: rest =>
      match tryAttempts http u 0 maxRetries with
      | (t, b, .success p) => (t, b, .ok p)
      | (t, b, .fatal e) => (t, b, .error e)
      | (t, b, .next e1) =>
          let (t2, b2, r) :=
            tryVariants http maxRetries (e1.orElse (fun _ => lastError)) rest
          (t ++ t2, b + b2, r)

/-- `urls_to_try` (reddit_scraper.py:48-50): when the URL mentions
`www.reddit.com`, try the `old.reddit.com` variant first. -/
def urlsToTry (url : String) : List String :=
  if containsSub url "www.reddit.com" then
    strReplace url "www.reddit.com" "old.reddit.com" :: [url]
  else [url]

/-- `_fetch_json` (reddit_scraper.py:39), as a function of the HTTP
oracle `http` (response to the `a`-th attempt at each URL). -/
def fetch_json (http : String → Nat → HttpResp) (url : String)
    (maxRetries : Nat := 3) : FetchResult :=
  { trace := (tryVariants http maxRetries none (urlsToTry url)).1,
    backoff := (tryVariants http maxRetries none (urlsToTry url)).2.1,
    outcome := (tryVariants http maxRetries none (urlsToTry url)).2.2 }

/-- External IDs of the posts currently stored. -/
def postIds (db : DB) : List String := db.posts.map (fun r => r.id)

/-- External IDs of the comments currently stored. -/
def commentIds (db : DB) : List String := db.comments.map (fun r => r.id)

/-- The `insert_comment` argument a `t1` node yields in
`_process_comments` (reddit_scraper.py:227-238). -/
def nodeData (postId : String) : RNode → CommentData
  | .node _ name author body created_utc parent_id score _ =>
      { id := name, post_id := postId,
        author := some (author.getD "[deleted]"), body := body.getD "",
        created_utc := created_utc, parent_id := parent_id,
        score := some (score.getD 0) }

/-- All comment items on the history pages, in page-walk order. -/
def allComments (pages : List HistoryPage) : List RawComment :=
  (pages.map (fun p => p.children)).flatten

/-- Insert a key into an insertion-ordered key list if absent
(first occurrence wins). -/
def addKey (ks : List String) (k : String) : List String :=
  if k ∈ ks then ks else ks ++ [k]

/-! ### Helper lemmas -/

lemma post_any_id_iff (ps : List PostRow) (i : String) :
    ps.any (fun r => r.id == i) = true ↔ i ∈ ps.map (fun r => r.id) := by
  simp [List.any_eq_true, List.mem_map, beq_iff_eq]

lemma post_any_id_eq_false (ps : List PostRow) (i : String)
    (h : i ∉ ps.map (fun r => r.id)) :
    ps.any (fun r => r.id == i) = false := by
  cases hh : ps.any (fun r => r.id == i) with
  | false => rfl
  | true => exact absurd ((post_any_id_iff ps i).mp hh) h

lemma comment_any_id_iff (cs : List CommentRow) (i : String) :
    cs.any (fun r => r.id == i) = true ↔ i ∈ cs.map (fun r => r.id) := by
  simp [List.any_eq_true, List.mem_map, beq_iff_eq]

lemma comment_any_id_eq_false (cs : List CommentRow) (i : String)
    (h : i ∉ cs.map (fun r => r.id)) :
    cs.any (fun r => r.id == i) = false := by
  cases hh : cs.any (fun r => r.id == i) with
  | false => rfl
  | true => exact absurd ((comment_any_id_iff cs i).mp hh) h

lemma update_comment_sentiment_ids (cid s : String) (db : DB) :
    (update_comment_sentiment cid s db).comments.map (fun r => r.id) =
      db.comments.map (fun r => r.id) := by
  simp only [update_comment_sentiment, List.map_map]
  refine List.map_congr_left (fun r _ => ?_)
  by_cases h : r.id = cid <;> simp [h]

lemma update_comment_reply_status_ids (cid rs : String) (db : DB) :
    (update_comment_reply_status cid rs db).comments.map (fun r => r.id) =
      db.comments.map (fun r => r.id) := by
  simp only [update_comment_reply_status, List.map_map]
  refine List.map_congr_left (fun r _ => ?_)
  by_cases h : r.id = cid <;> simp [h]

lemma update_comment_sentiment_posts (cid s : String) (db : DB) :
    (update_comment_sentiment cid s db).posts = db.posts := rfl

lemma update_comment_reply_status_posts (cid rs : String) (db : DB) :
    (update_comment_reply_status cid rs db).posts = db.posts := rfl

lemma findComment_after_updates (cs : List CommentRow) (row : CommentRow)
    (s rs : String) (hfresh : ∀ r ∈ cs, r.id ≠ row.id) :
    findComment
      (update_comment_reply_status row.id rs
        (update_comment_sentiment row.id s ⟨[], cs ++ [row], []⟩))
      row.id = some { row with sentiment := s, reply_status := rs } := by
  induction cs with
  | nil =>
      simp [findComment, update_comment_sentiment, update_comment_reply_status]
  | cons r rest ih =>
      have hr : r.id ≠ row.id := hfresh r (List.mem_cons_self r rest)
      have ih' := ih (fun x hx => hfresh x (List.mem_cons_of_mem r hx))
      simpa [findComment, update_comment_sentiment, update_comment_reply_status,
        hr] using ih'

lemma le_foldr_max (l : List Nat) : ∀ x ∈ l, x ≤ l.foldr max 0 := by
  induction l with
  | nil => simp
  | cons a t ih =>
      intro x hx
      rcases List.mem_cons.mp hx with h | h
      · subst h; exact le_max_left _ _
      · exact le_trans (ih x h) (le_max_right _ _)

lemma scrape_log_id_ne_next (db : DB) :
    ∀ r ∈ db.scrape_log, r.id ≠ nextLogId db := by
  intro r hr
  have hmem : r.id ∈ db.scrape_log.map (fun x => x.id) :=
    List.mem_map.mpr ⟨r, hr, rfl⟩
  have := le_foldr_max _ r.id hmem
  unfold nextLogId
  omega

/-- Finalizing the row just opened by `log_scrape_start` rewrites exactly
that row and leaves every pre-existing row unchanged (the AUTOINCREMENT
id is fresh). -/
lemma log_scrape_end_of_start (nowS nowE status : String)
    (pf nc : Nat) (msg : Option String) (es : Bool) (db : DB) :
    log_scrape_end (log_scrape_start nowS db).1 pf nc status msg es nowE
        (log_scrape_start nowS db).2 =
      { db with scrape_log := db.scrape_log ++
        [{ id := nextLogId db, started_at := nowS, completed_at := some nowE,
           posts_found := pf, new_comments_found := nc, status := status,
           error_message := msg, email_sent := if es then 1 else 0 }] } := by
  have hold : db.scrape_log.map (fun r =>
      if r.id == nextLogId db then
        { r with
          completed_at := some nowE
          posts_found := pf
          new_comments_found := nc
          status := status
          error_message := msg
          email_sent := if es then 1 else 0 }
      else r) = db.scrape_log.map id :=
    List.map_congr_left (fun r hr => by
      have := scrape_log_id_ne_next db r hr
      simp [this])
  rw [List.map_id] at hold
  simp only [log_scrape_start, log_scrape_end, List.map_append, hold]
  simp

lemma find_update_reply_status (cs : List CommentRow) (cid rs : String) :
    (cs.map (fun r => if r.id == cid then { r with reply_status := rs } else r)).find?
        (fun r => r.id == cid) =
      (cs.find? (fun r => r.id == cid)).map
        (fun r => { r with reply_status := rs }) := by
  induction cs with
  | nil => simp
  | cons r rest ih =>
      simp only [List.map_cons]
      by_cases h : (r.id == cid) = true
      · rw [if_pos h]
        have hL : List.find? (fun x => x.id == cid)
            ({ r with reply_status := rs } ::
              rest.map (fun x => if x.id == cid then { x with reply_status := rs } else x)) =
            some { r with reply_status := rs } :=
          List.find?_cons_of_pos _ h
        have hR : List.find? (fun x => x.id == cid) (r :: rest) = some r :=
          List.find?_cons_of_pos _ h
        rw [hL, hR]
        rfl
      · rw [if_neg h]
        have hpa : ((fun x : CommentRow => x.id == cid) r) ≠ true := h
        have hL : List.find? (fun x => x.id == cid)
            (r :: rest.map (fun x => if x.id == cid then { x with reply_status := rs } else x)) =
            List.find? (fun x => x.id == cid)
              (rest.map (fun x => if x.id == cid then { x with reply_status := rs } else x)) :=
          List.find?_cons_of_neg _ (by simpa using hpa)
        have hR : List.find? (fun x => x.id == cid) (r :: rest) =
            List.find? (fun x => x.id == cid) rest :=
          List.find?_cons_of_neg _ (by simpa using hpa)
        rw [hL, hR]
        exact ih

lemma findComment_update_reply_status (cid rs : String) (db : DB) :
    findComment (update_comment_reply_status cid rs db) cid =
      (findComment db cid).map (fun r => { r with reply_status := rs }) := by
  simp only [findComment, update_comment_reply_status]
  exact find_update_reply_status db.comments cid rs

lemma log_scrape_start_comments (now : String) (db : DB) :
    ((log_scrape_start now db).2).comments = db.comments := rfl

lemma log_scrape_end_comments (i pf nc : Nat) (st : String)
    (msg : Option String) (es : Bool) (now : String) (db : DB) :
    (log_scrape_end i pf nc st msg es now db).comments = db.comments := rfl

lemma log_scrape_start_posts (now : String) (db : DB) :
    ((log_scrape_start now db).2).posts = db.posts := rfl

lemma log_scrape_end_posts (i pf nc : Nat) (st : String)
    (msg : Option String) (es : Bool) (now : String) (db : DB) :
    (log_scrape_end i pf nc st msg es now db).posts = db.posts := rfl

lemma update_comment_reply_status_scrape_log (cid rs : String) (db : DB) :
    (update_comment_reply_status cid rs db).scrape_log = db.scrape_log := rfl

lemma update_rs_commentIds (cid rs : String) (db : DB) :
    commentIds (update_comment_reply_status cid rs db) = commentIds db :=
  update_comment_reply_status_ids cid rs db

lemma insert_post_comments (p : PostData) (now : String) (d : DB) :
    ((insert_post p now d).2).comments = d.comments := by
  by_cases h : d.posts.any (fun r => r.id == p.id) <;> simp [insert_post, h]

lemma insert_post_scrape_log (p : PostData) (now : String) (d : DB) :
    ((insert_post p now d).2).scrape_log = d.scrape_log := by
  by_cases h : d.posts.any (fun r => r.id == p.id) <;> simp [insert_post, h]

lemma insert_post_postIds_sub (p : PostData) (now : String) (d : DB) :
    ∀ i ∈ postIds d, i ∈ postIds (insert_post p now d).2 := by
  intro i hi
  have hex : ∃ a ∈ d.posts, a.id = i := by simpa [postIds] using hi
  by_cases h : d.posts.any (fun r => r.id == p.id)
  · simpa [insert_post, h, postIds] using hex
  · simp [insert_post, h, postIds]
    exact Or.inl hex

lemma insert_post_mem_postIds (p : PostData) (now : String) (d : DB) :
    p.id ∈ postIds (insert_post p now d).2 := by
  by_cases h : d.posts.any (fun r => r.id == p.id)
  · have := (post_any_id_iff _ _).mp h
    simpa [insert_post, h, postIds] using this
  · simp [insert_post, h, postIds, postRow]

/-- Combined effect of the `for post in posts: insert_post(post)` loop of
`api_sync_upload`. -/
lemma sync_posts_fold (now : String) (posts : List PostData) :
    ∀ d : DB,
      (posts.foldl (fun d p => (insert_post p now d).2) d).comments = d.comments ∧
      (posts.foldl (fun d p => (insert_post p now d).2) d).scrape_log = d.scrape_log ∧
      (∀ i ∈ postIds d, i ∈ postIds (posts.foldl (fun d p => (insert_post p now d).2) d)) ∧
      (∀ p ∈ posts, p.id ∈ postIds (posts.foldl (fun d p => (insert_post p now d).2) d)) := by
  induction posts with
  | nil => intro d; exact ⟨rfl, rfl, fun i hi => hi, by simp⟩
  | cons p rest ih =>
      intro d
      obtain ⟨h1, h2, h3, h4⟩ := ih ((insert_post p now d).2)
      refine ⟨?_, ?_, ?_, ?_⟩
      · rw [List.foldl_cons, h1, insert_post_comments]
      · rw [List.foldl_cons, h2, insert_post_scrape_log]
      · intro i hi
        rw [List.foldl_cons]
        exact h3 i (insert_post_postIds_sub p now d i hi)
      · intro q hq
        rw [List.foldl_cons]
        rcases List.mem_cons.mp hq with h | h
        · subst h
          exact h3 q.id (insert_post_mem_postIds q now d)
        · exact h4 q h

lemma insert_comment_posts (c : CommentData) (now : String) (d : DB) :
    ((insert_comment c now d).2).posts = d.posts := by
  by_cases h1 : d.comments.any (fun r => r.id == c.id) <;>
    by_cases h2 : d.posts.any (fun r => r.id == c.post_id) <;>
    simp [insert_comment, h1, h2]

lemma insert_comment_scrape_log (c : CommentData) (now : String) (d : DB) :
    ((insert_comment c now d).2).scrape_log = d.scrape_log := by
  by_cases h1 : d.comments.any (fun r => r.id == c.id) <;>
    by_cases h2 : d.posts.any (fun r => r.id == c.post_id) <;>
    simp [insert_comment, h1, h2]

lemma insert_comment_false_of_known (c : CommentData) (now : String) (d : DB)
    (h : c.id ∈ commentIds d) :
    insert_comment c now d = (.ok false, d) := by
  have := (comment_any_id_iff d.comments c.id).mpr (by simpa [commentIds] using h)
  simp [insert_comment, this]

lemma insert_comment_true_of_new (c : CommentData) (now : String) (d : DB)
    (hid : c.id ∉ commentIds d) (hpost : c.post_id ∈ postIds d) :
    insert_comment c now d =
      (.ok true, { d with comments := d.comments ++ [commentRow c now] }) := by
  have h1 : d.comments.any (fun r => r.id == c.id) = false :=
    comment_any_id_eq_false _ _ (by simpa [commentIds] using hid)
  have h2 : d.posts.any (fun r => r.id == c.post_id) = true :=
    (post_any_id_iff d.posts c.post_id).mpr (by simpa [postIds] using hpost)
  simp [insert_comment, h1, h2]

lemma applyOverride_posts (c : SyncCommentData) (d : DB) :
    (applyOverride c d).posts = d.posts := by
  by_cases hov : syncOverride c.reply_status <;>
    simp [applyOverride, hov, update_comment_reply_status_posts]

lemma applyOverride_scrape_log (c : SyncCommentData) (d : DB) :
    (applyOverride c d).scrape_log = d.scrape_log := by
  by_cases hov : syncOverride c.reply_status <;>
    simp [applyOverride, hov, update_comment_reply_status_scrape_log]

lemma applyOverride_commentIds (c : SyncCommentData) (d : DB) :
    commentIds (applyOverride c d) = commentIds d := by
  by_cases hov : syncOverride c.reply_status <;>
    simp [applyOverride, hov, update_rs_commentIds]

lemma applyOverride_postIds (c : SyncCommentData) (d : DB) :
    postIds (applyOverride c d) = postIds d := by
  simp only [postIds, applyOverride_posts]

/-- The comment loop succeeds whenever every uploaded comment references
a stored post; the resulting store keeps its posts and log, keeps every
previous comment id, and ends up holding every uploaded comment id. -/
lemma syncInsertComments_ok (now : String) :
    ∀ (comments : List SyncCommentData) (acc : Nat) (d : DB),
      (∀ c ∈ comments, c.data.post_id ∈ postIds d) →
      ∃ n d2, syncInsertComments comments now acc d = (.ok n, d2) ∧
        d2.posts = d.posts ∧ d2.scrape_log = d.scrape_log ∧
        (∀ i ∈ commentIds d, i ∈ commentIds d2) ∧
        (∀ c ∈ comments, c.data.id ∈ commentIds d2) := by
  intro comments
  induction comments with
  | nil =>
      intro acc d _
      exact ⟨acc, d, rfl, rfl, rfl, fun i hi => hi, by simp⟩
  | cons c rest ih =>
      intro acc d h
      have hpost : c.data.post_id ∈ postIds d := h c (List.mem_cons_self c rest)
      have hrest : ∀ x ∈ rest, x.data.post_id ∈ postIds d :=
        fun x hx => h x (List.mem_cons_of_mem c hx)
      by_cases hid : c.data.id ∈ commentIds d
      · have hins := insert_comment_false_of_known c.data now d hid
        have hrest' : ∀ x ∈ rest, x.data.post_id ∈ postIds (applyOverride c d) := by
          intro x hx
          rw [applyOverride_postIds]
          exact hrest x hx
        obtain ⟨n, d2, heq, hp, hs, hsub, hall⟩ := ih acc (applyOverride c d) hrest'
        refine ⟨n, d2, ?_, ?_, ?_, ?_, ?_⟩
        · have hstep : syncInsertComments (c :: rest) now acc d =
              syncInsertComments rest now acc (applyOverride c d) := by
            simp [syncInsertComments, hins]
          rw [hstep]
          exact heq
        · rw [hp, applyOverride_posts]
        · rw [hs, applyOverride_scrape_log]
        · intro i hi
          exact hsub i (by rw [applyOverride_commentIds]; exact hi)
        · intro x hx
          rcases List.mem_cons.mp hx with hh | hh
          · subst hh
            exact hsub x.data.id (by rw [applyOverride_commentIds]; exact hid)
          · exact hall x hh
      · have hins := insert_comment_true_of_new c.data now d hid hpost
        have hnewIds : commentIds { d with comments := d.comments ++ [commentRow c.data now] } =
            commentIds d ++ [c.data.id] := by
          simp [commentIds, commentRow]
        have hrest' : ∀ x ∈ rest, x.data.post_id ∈
            postIds (applyOverride c { d with comments := d.comments ++ [commentRow c.data now] }) := by
          intro x hx
          rw [applyOverride_postIds]
          simpa [postIds] using hrest x hx
        obtain ⟨n, d2, heq, hp, hs, hsub, hall⟩ :=
          ih (acc + 1) (applyOverride c { d with comments := d.comments ++ [commentRow c.data now] }) hrest'
        refine ⟨n, d2, ?_, ?_, ?_, ?_, ?_⟩
        · have hstep : syncInsertComments (c :: rest) now acc d =
              syncInsertComments rest now (acc + 1)
                (applyOverride c { d with comments := d.comments ++ [commentRow c.data now] }) := by
            simp [syncInsertComments, hins]
          rw [hstep]
          exact heq
        · rw [hp, applyOverride_posts]
        · rw [hs, applyOverride_scrape_log]
        · intro i hi
          refine hsub i ?_
          rw [applyOverride_commentIds, hnewIds]
          exact List.mem_append_left _ hi
        · intro x hx
          rcases List.mem_cons.mp hx with hh | hh
          · subst hh
            refine hsub x.data.id ?_
            rw [applyOverride_commentIds, hnewIds]
            exact List.mem_append_right _ (by simp)
          · exact hall x hh

/-- Re-running the comment loop over a store that already holds every
uploaded comment id inserts nothing: the count stays at `acc`. -/
lemma syncInsertComments_known (now : String) :
    ∀ (comments : List SyncCommentData) (acc : Nat) (d : DB),
      (∀ c ∈ comments, c.data.id ∈ commentIds d) →
      ∃ d2, syncInsertComments comments now acc d = (.ok acc, d2) ∧
        d2.posts = d.posts ∧ d2.scrape_log = d.scrape_log ∧
        commentIds d2 = commentIds d := by
  intro comments
  induction comments with
  | nil => intro acc d _; exact ⟨d, rfl, rfl, rfl, rfl⟩
  | cons c rest ih =>
      intro acc d h
      have hid : c.data.id ∈ commentIds d := h c (List.mem_cons_self c rest)
      have hins := insert_comment_false_of_known c.data now d hid
      have hrest : ∀ x ∈ rest, x.data.id ∈ commentIds (applyOverride c d) := by
        intro x hx
        rw [applyOverride_commentIds]
        exact h x (List.mem_cons_of_mem c hx)
      obtain ⟨d2, heq, hp, hs, hids⟩ := ih acc (applyOverride c d) hrest
      refine ⟨d2, ?_, ?_, ?_, ?_⟩
      · have hstep : syncInsertComments (c :: rest) now acc d =
            syncInsertComments rest now acc (applyOverride c d) := by
          simp [syncInsertComments, hins]
        rw [hstep]
        exact heq
      · rw [hp, applyOverride_posts]
      · rw [hs, applyOverride_scrape_log]
      · rw [hids, applyOverride_commentIds]

lemma commentRow_nodeData_id (postId now : String) (m : RNode) :
    (commentRow (nodeData postId m) now).id = m.name := by
  cases m
  rfl

lemma commentIds_append (db : DB) (rows : List CommentRow) :
    commentIds { db with comments := db.comments ++ rows } =
      commentIds db ++ rows.map (fun r => r.id) := by
  simp [commentIds]

mutual

/-- What `_process_comments` does to one node of a reply tree whose `t1`
names are fresh and mutually distinct, over a store holding the post. -/
lemma processNode_spec (postId now : String) (n : RNode) (db : DB)
    (hpost : postId ∈ postIds db)
    (hnodup : ((nodeFlat n).map RNode.name).Nodup)
    (hfresh : ∀ m ∈ nodeFlat n, m.name ∉ commentIds db) :
    processNode postId now n db =
      (.ok (nodeFlat n).length,
       { db with comments := db.comments ++
          (nodeFlat n).map (fun m => commentRow (nodeData postId m) now) }) := by
  cases n with
  | node kind name author body created_utc parent_id score replies =>
      by_cases hk : (kind == "t1") = true
      · have hflat : nodeFlat (RNode.node kind name author body created_utc parent_id score replies) =
            RNode.node kind name author body created_utc parent_id score replies ::
              listFlat replies := by
          simp [nodeFlat, hk]
        have hname : name ∉ commentIds db := by
          have := hfresh _ (by rw [hflat]; exact List.mem_cons_self _ _)
          simpa [RNode.name] using this
        have hins := insert_comment_true_of_new
          (nodeData postId (RNode.node kind name author body created_utc parent_id score replies))
          now db hname hpost
        simp only [nodeData] at hins
        rw [hflat] at hnodup hfresh ⊢
        by_cases hrep : replies = []
        · subst hrep
          simp only [processNode, hk, if_true, hins, listFlat, List.isEmpty_nil]
          simp [nodeData]
        · have hrepE : replies.isEmpty = false := by
            cases replies with
            | nil => exact absurd rfl hrep
            | cons a l => rfl
          have hsub := processComments_spec postId now replies
            { db with comments := db.comments ++
                [commentRow (nodeData postId (RNode.node kind name author body created_utc parent_id score replies)) now] }
            (by simpa [postIds] using hpost)
            (by
              rw [List.map_cons] at hnodup
              exact hnodup.of_cons)
            (by
              intro m hm
              rw [commentIds_append]
              intro hmem
              rcases List.mem_append.mp hmem with hold | hnew
              · exact hfresh m (List.mem_cons_of_mem _ hm) hold
              · rw [List.map_cons] at hnodup
                have hhead : name ∉ (listFlat replies).map RNode.name := by
                  have := hnodup
                  simpa [RNode.name] using (List.nodup_cons.mp this).1
                have hmname : m.name ∈ (listFlat replies).map RNode.name :=
                  List.mem_map.mpr ⟨m, hm, rfl⟩
                have : m.name = name := by
                  simpa [commentRow_nodeData_id] using hnew
                rw [this] at hmname
                exact hhead hmname)
          simp only [nodeData] at hsub
          simp only [processNode, hk, if_true, hins, hrepE, Bool.false_eq_true,
            if_false]
          rw [hsub]
          simp [nodeData, Nat.add_comm, List.append_assoc]
      · have hflat : nodeFlat (RNode.node kind name author body created_utc parent_id score replies) = [] := by
          simp [nodeFlat, hk]
        rw [hflat]
        simp [processNode, hk]

/-- What `_process_comments` does to a listing of reply-tree nodes whose
`t1` names are fresh and mutually distinct, over a store holding the
post: it returns the number of depth-first `t1` nodes and appends exactly
their rows, in depth-first order, each tagged with the crawl's post id. -/
lemma processComments_spec (postId now : String) (nodes : List RNode) (db : DB)
    (hpost : postId ∈ postIds db)
    (hnodup : ((listFlat nodes).map RNode.name).Nodup)
    (hfresh : ∀ m ∈ listFlat nodes, m.name ∉ commentIds db) :
    processComments postId now nodes db =
      (.ok (listFlat nodes).length,
       { db with comments := db.comments ++
          (listFlat nodes).map (fun m => commentRow (nodeData postId m) now) }) := by
  cases nodes with
  | nil => simp [processComments, listFlat]
  | cons n rest =>
      have hflat : listFlat (n :: rest) = nodeFlat n ++ listFlat rest := by
        simp [listFlat]
      rw [hflat] at hnodup hfresh ⊢
      rw [List.map_append] at hnodup
      obtain ⟨hn1, hn2, hdisj⟩ := List.nodup_append.mp hnodup
      have hA := processNode_spec postId now n db hpost hn1
        (fun m hm => hfresh m (List.mem_append_left _ hm))
      have hB := processComments_spec postId now rest
        { db with comments := db.comments ++
            (nodeFlat n).map (fun m => commentRow (nodeData postId m) now) }
        (by simpa [postIds] using hpost) hn2
        (by
          intro m hm
          rw [commentIds_append]
          intro hmem
          rcases List.mem_append.mp hmem with hold | hnew
          · exact hfresh m (List.mem_append_right _ hm) hold
          · have hmm : m.name ∈ (nodeFlat n).map RNode.name := by
              simpa [List.map_map, commentRow_nodeData_id] using hnew
            have : m.name ∈ (listFlat rest).map RNode.name :=
              List.mem_map.mpr ⟨m, hm, rfl⟩
            exact hdisj hmm this)
      simp only [processComments, hA, hB]
      simp [List.length_append, List.map_append, List.append_assoc]

end

lemma dictLookup_eq_none_iff (d : List (String × PostInfo)) (k : String) :
    dictLookup d k = none ↔ k ∉ d.map Prod.fst := by
  simp only [dictLookup, Option.map_eq_none', List.find?_eq_none, List.mem_map,
    beq_iff_eq]
  constructor
  · rintro h ⟨kv, hkv, he⟩
    exact h kv hkv he
  · intro h kv hkv he
    exact h ⟨kv, hkv, he⟩

lemma dictLookup_append_some (d : List (String × PostInfo))
    (e : String × PostInfo) (k : String) (v : PostInfo)
    (h : dictLookup d k = some v) : dictLookup (d ++ [e]) k = some v := by
  rcases hfind : d.find? (fun kv => kv.1 == k) with _ | kv
  · simp [dictLookup, hfind] at h
  · simp only [dictLookup, hfind, Option.map_some'] at h
    simp [dictLookup, List.find?_append, hfind, h]

lemma discoverStep_of_mem (d : List (String × PostInfo)) (c : RawComment)
    (h : c.link_id ∈ d.map Prod.fst) : discoverStep d c = d := by
  have hne : dictLookup d c.link_id ≠ none :=
    fun hh => ((dictLookup_eq_none_iff _ _).mp hh) h
  have hisNone : (dictLookup d c.link_id).isNone = false := by
    cases hh : dictLookup d c.link_id with
    | none => exact absurd hh hne
    | some v => rfl
  simp [discoverStep, hisNone]

lemma discoverStep_of_not_mem (d : List (String × PostInfo)) (c : RawComment)
    (hid : c.link_id ≠ "") (hlen : 5 ≤ (permalinkParts c.permalink).length)
    (h : c.link_id ∉ d.map Prod.fst) :
    discoverStep d c = d ++ [(c.link_id, mkInfo c)] := by
  have hnone : dictLookup d c.link_id = none := (dictLookup_eq_none_iff _ _).mpr h
  simp [discoverStep, hnone, hid, hlen, bne_iff_ne, ge_iff_le]

lemma dictLookup_discoverStep_none (d : List (String × PostInfo))
    (c : RawComment) (k : String) (hk : k ≠ c.link_id)
    (hnone : dictLookup d k = none) :
    dictLookup (discoverStep d c) k = none := by
  have hfind : d.find? (fun kv => kv.1 == k) = none := by
    simpa [dictLookup, Option.map_eq_none'] using hnone
  by_cases g1 : (c.link_id != "" && (dictLookup d c.link_id).isNone) = true
  · by_cases g2 : 5 ≤ (permalinkParts c.permalink).length
    · have hb : (c.link_id == k) = false := by
        cases hbb : c.link_id == k with
        | false => rfl
        | true => exact absurd (beq_iff_eq.mp hbb).symm hk
      have hsingle : ([((c.link_id, mkInfo c) : String × PostInfo)].find?
          (fun kv => kv.1 == k)) = none := by
        simp [List.find?, hb]
      rw [show discoverStep d c = d ++ [(c.link_id, mkInfo c)] by
        simp [discoverStep, g1, g2, ge_iff_le]]
      simp [dictLookup, List.find?_append, hfind, hsingle]
    · simp only [discoverStep, g1, if_true, ge_iff_le, g2, if_false]
      exact hnone
  · simp only [discoverStep, g1]
    simp only [Bool.not_eq_true] at g1
    rw [if_neg (by simp [g1])]
    exact hnone

/-- Folding the page items into the `discovered` dict never loses an
entry. -/
lemma foldl_discoverStep_some (cs : List RawComment) :
    ∀ (d : List (String × PostInfo)) (k : String) (v : PostInfo),
      dictLookup d k = some v →
      dictLookup (cs.foldl discoverStep d) k = some v := by
  induction cs with
  | nil => intro d k v h; exact h
  | cons c cs ih =>
      intro d k v h
      rw [List.foldl_cons]
      refine ih _ k v ?_
      by_cases g1 : (c.link_id != "" && (dictLookup d c.link_id).isNone) = true
      · by_cases g2 : 5 ≤ (permalinkParts c.permalink).length
        · rw [show discoverStep d c = d ++ [(c.link_id, mkInfo c)] by
            simp [discoverStep, g1, g2, ge_iff_le]]
          exact dictLookup_append_some d _ k v h
        · rw [show discoverStep d c = d by
            simp only [discoverStep, g1, if_true, ge_iff_le, g2, if_false]]
          exact h
      · rw [show discoverStep d c = d by
          simp only [discoverStep, g1]
          simp only [Bool.not_eq_true] at g1
          rw [if_neg (by simp [g1])]]
        exact h

/-- Folding well-formed page items into the dict from a state where `k`
is unbound yields the entry of the first comment whose `link_id` is `k`
(first occurrence wins), or nothing when no such comment exists. -/
lemma foldl_discoverStep_none (cs : List RawComment) :
    ∀ (d : List (String × PostInfo)) (k : String),
      (∀ c ∈ cs, c.link_id ≠ "" ∧ 5 ≤ (permalinkParts c.permalink).length) →
      dictLookup d k = none →
      dictLookup (cs.foldl discoverStep d) k =
        (cs.find? (fun c => c.link_id == k)).map mkInfo := by
  induction cs with
  | nil => intro d k _ h; simpa using h
  | cons c cs ih =>
      intro d k hwf hnone
      have hcwf := hwf c (List.mem_cons_self c cs)
      rw [List.foldl_cons]
      by_cases hck : c.link_id = k
      · have hnotmem : k ∉ d.map Prod.fst := (dictLookup_eq_none_iff _ _).mp hnone
        have hstep := discoverStep_of_not_mem d c hcwf.1 hcwf.2
          (by rw [hck]; exact hnotmem)
        rw [hstep]
        have hlook : dictLookup (d ++ [(c.link_id, mkInfo c)]) k =
            some (mkInfo c) := by
          have hfind : d.find? (fun kv => kv.1 == k) = none := by
            simpa [dictLookup, Option.map_eq_none'] using hnone
          simp [dictLookup, List.find?_append, hfind, List.find?, hck]
        rw [foldl_discoverStep_some cs _ k _ hlook]
        have : (c :: cs).find? (fun x => x.link_id == k) = some c :=
          List.find?_cons_of_pos _ (by simp [hck])
        rw [this]
        rfl
      · have hstepnone := dictLookup_discoverStep_none d c k
          (fun he => hck he.symm) hnone
        rw [ih _ k (fun x hx => hwf x (List.mem_cons_of_mem c hx)) hstepnone]
        have : (c :: cs).find? (fun x => x.link_id == k) =
            cs.find? (fun x => x.link_id == k) :=
          List.find?_cons_of_neg _ (by simp [hck])
        rw [this]

/-- The keys of the `discovered` dict after a page walk: the fold of
`addKey` over the comments' `link_id`s (first occurrence order). -/
lemma foldl_discoverStep_keys (cs : List RawComment) :
    ∀ (d : List (String × PostInfo)),
      (∀ c ∈ cs, c.link_id ≠ "" ∧ 5 ≤ (permalinkParts c.permalink).length) →
      (cs.foldl discoverStep d).map Prod.fst =
        (cs.map (fun c => c.link_id)).foldl addKey (d.map Prod.fst) := by
  induction cs with
  | nil => intro d _; rfl
  | cons c cs ih =>
      intro d hwf
      have hcwf := hwf c (List.mem_cons_self c cs)
      rw [List.foldl_cons, List.map_cons, List.foldl_cons]
      by_cases hmem : c.link_id ∈ d.map Prod.fst
      · rw [discoverStep_of_mem d c hmem,
          show addKey (d.map Prod.fst) c.link_id = d.map Prod.fst by
            simp [addKey, hmem]]
        exact ih d (fun x hx => hwf x (List.mem_cons_of_mem c hx))
      · rw [discoverStep_of_not_mem d c hcwf.1 hcwf.2 hmem,
          show addKey (d.map Prod.fst) c.link_id = d.map Prod.fst ++ [c.link_id] by
            simp [addKey, hmem]]
        have := ih (d ++ [(c.link_id, mkInfo c)])
          (fun x hx => hwf x (List.mem_cons_of_mem c hx))
        simpa using this

lemma addKey_fold_mem (l : List String) :
    ∀ (ks : List String) (x : String),
      x ∈ l.foldl addKey ks ↔ x ∈ ks ∨ x ∈ l := by
  induction l with
  | nil => intro ks x; simp
  | cons k l ih =>
      intro ks x
      rw [List.foldl_cons, ih]
      have : x ∈ addKey ks k ↔ x ∈ ks ∨ x = k := by
        by_cases hm : k ∈ ks
        · simp only [addKey, if_pos hm]
          constructor
          · exact fun h => Or.inl h
          · rintro (h | h)
            · exact h
            · rw [h]; exact hm
        · simp [addKey, hm]
      rw [this]
      simp [List.mem_cons]
      tauto

lemma addKey_fold_nodup (l : List String) :
    ∀ ks : List String, ks.Nodup → (l.foldl addKey ks).Nodup := by
  induction l with
  | nil => intro ks h; exact h
  | cons k l ih =>
      intro ks h
      rw [List.foldl_cons]
      refine ih _ ?_
      by_cases hm : k ∈ ks
      · simpa [addKey, hm] using h
      · simp only [addKey, if_neg hm]
        simp [List.nodup_append, h, hm]

lemma addKey_fold_nil_length (l : List String) :
    (l.foldl addKey []).length = l.toFinset.card := by
  have hnd : (l.foldl addKey []).Nodup := addKey_fold_nodup l [] (by simp)
  have hfs : (l.foldl addKey []).toFinset = l.toFinset := by
    ext x
    simp [List.mem_toFinset, addKey_fold_mem]
  rw [← List.toFinset_card_of_nodup hnd, hfs]

/-- When the pages fit the walk's bounds (at most 5, none empty, every
non-final page carrying a cursor), the page loop processes exactly the
concatenation of all page items. -/
lemma discoverLoop_nil (fuel : Nat) (d : List (String × PostInfo)) :
    discoverLoop fuel [] d = d := by
  cases fuel <;> rfl

lemma discoverLoop_eq_foldl :
    ∀ (pages : List HistoryPage) (fuel : Nat) (d : List (String × PostInfo)),
      pages.length ≤ fuel →
      (∀ p ∈ pages, p.children ≠ []) →
      (∀ p ∈ pages.dropLast, p.after.isSome) →
      discoverLoop fuel pages d = (allComments pages).foldl discoverStep d := by
  intro pages
  induction pages with
  | nil =>
      intro fuel d _ _ _
      rw [discoverLoop_nil]
      rfl
  | cons p rest ih =>
      intro fuel d hlen hne hafter
      cases fuel with
      | zero => simp at hlen
      | succ f =>
          have hpe : p.children.isEmpty = false := by
            cases hpc : p.children with
            | nil => exact absurd hpc (hne p (List.mem_cons_self p rest))
            | cons a l => rfl
          have hall : allComments (p :: rest) = p.children ++ allComments rest := by
            simp [allComments]
          rw [hall, List.foldl_append]
          by_cases hrest : rest = []
          · subst hrest
            simp only [discoverLoop, hpe, Bool.false_eq_true, if_false]
            cases hp : p.after <;>
              simp [hp, discoverLoop_nil, allComments]
          · have hps : p.after.isSome := by
              refine hafter p ?_
              rw [List.dropLast_cons_of_ne_nil hrest]
              exact List.mem_cons_self p _
            rcases hpa : p.after with _ | a
            · rw [hpa] at hps; simp at hps
            · simp only [discoverLoop, hpe, Bool.false_eq_true, if_false, hpa]
              exact ih f _
                (by simp only [List.length_cons] at hlen; omega)
                (fun x hx => hne x (List.mem_cons_of_mem p hx))
                (fun x hx => hafter x (by
                  rw [List.dropLast_cons_of_ne_nil hrest]
                  exact List.mem_cons_of_mem p hx))

/-- In a dict with distinct keys, membership of a pair determines the
lookup. -/
lemma dictLookup_of_mem_nodup (d : List (String × PostInfo))
    (hnd : (d.map Prod.fst).Nodup) (k : String) (info : PostInfo)
    (h : (k, info) ∈ d) : dictLookup d k = some info := by
  induction d with
  | nil => simp at h
  | cons kv rest ih =>
      rw [List.map_cons] at hnd
      rcases List.mem_cons.mp h with he | hmem
      · subst he
        simp [dictLookup, List.find?_cons_of_pos]
      · have hk : k ∈ rest.map Prod.fst := List.mem_map.mpr ⟨_, hmem, rfl⟩
        have hne : kv.1 ≠ k := by
          intro he
          exact (List.nodup_cons.mp hnd).1 (he ▸ hk)
        have := ih (List.nodup_cons.mp hnd).2 hmem
        simpa [dictLookup, List.find?_cons_of_neg, hne] using this

/-! ### Claims -/

/-- **C1** (idempotent ingestion): inserting a post (resp. comment) whose
external ID is absent returns `isNew = true`; a second insertion with the
same external ID returns `isNew = false` and leaves the store unchanged,
so the immutable fields are exactly what the first insertion stored; and
the mutable classification fields (`sentiment`, `reply_status`) set
between the two insertions keep their updated values after the second
insertion. -/
theorem claim_C1_idempotent_ingestion
    (p q : PostData) (c c2 : CommentData) (s rs : String)
    (nowA nowB nowC nowD : String) (dbP dbC : DB)
    (hq : q.id = p.id) (hc2 : c2.id = c.id)
    (hpFresh : p.id ∉ dbP.posts.map (fun r => r.id))
    (hcPost : c.post_id ∈ dbC.posts.map (fun r => r.id))
    (hcFresh : ∀ r ∈ dbC.comments, r.id ≠ c.id)
    (db1 dc1 dc2 : DB)
    (hdb1 : db1 = { dbP with posts := dbP.posts ++ [postRow p nowA] })
    (hdc1 : dc1 = { dbC with comments := dbC.comments ++ [commentRow c nowC] })
    (hdc2 : dc2 = update_comment_reply_status c.id rs
      (update_comment_sentiment c.id s dc1)) :
    insert_post p nowA dbP = (true, db1) ∧
    insert_post q nowB db1 = (false, db1) ∧
    insert_comment c nowC dbC = (.ok true, dc1) ∧
    insert_comment c2 nowD dc2 = (.ok false, dc2) ∧
    findComment dc2 c.id =
      some { commentRow c nowC with sentiment := s, reply_status := rs } := by
  subst hdb1 hdc1 hdc2
  have hPfalse := post_any_id_eq_false dbP.posts p.id hpFresh
  have hCfalse := comment_any_id_eq_false dbC.comments c.id
    (by
      intro hmem
      rcases List.mem_map.mp hmem with ⟨r, hr, hrid⟩
      exact hcFresh r hr hrid)
  refine ⟨?_, ?_, ?_, ?_, ?_⟩
  · simp [insert_post, hPfalse]
  · have : (dbP.posts ++ [postRow p nowA]).any (fun r => r.id == q.id) = true := by
      simp [List.any_append, postRow, hq]
    simp [insert_post, this]
  · have hPost : dbC.posts.any (fun r => r.id == c.post_id) = true :=
      (post_any_id_iff dbC.posts c.post_id).mpr hcPost
    simp [insert_comment, hCfalse, hPost]
  · have hmem : c2.id ∈
        (update_comment_reply_status c.id rs
          (update_comment_sentiment c.id s
            { dbC with comments := dbC.comments ++ [commentRow c nowC] })).comments.map
          (fun r => r.id) := by
      rw [update_comment_reply_status_ids, update_comment_sentiment_ids]
      simp [commentRow, hc2]
    have hAny := (comment_any_id_iff _ c2.id).mpr hmem
    simp [insert_comment, hAny]
  · have hrowid : (commentRow c nowC).id = c.id := rfl
    have := findComment_after_updates dbC.comments (commentRow c nowC) s rs
      (by rw [hrowid]; exact hcFresh)
    rw [hrowid] at this
    simpa [findComment, update_comment_sentiment, update_comment_reply_status]
      using this

/-- Witness for C1 at a concrete store and records. -/
theorem claim_C1_idempotent_ingestion_witness :
    insert_comment ⟨"t1_x", "t3_a", some "al", "hi", 6, some "t3_a", some 2⟩
        "n4"
        (update_comment_reply_status "t1_x" "replied"
          (update_comment_sentiment "t1_x" "positive"
            { posts := [⟨"t3_a", "T", "sub", "u", 5, "n1"⟩],
              comments := [commentRow ⟨"t1_x", "t3_a", some "al", "hi", 6, some "t3_a", some 2⟩ "n3"],
              scrape_log := [] })) =
      (.ok false,
        update_comment_reply_status "t1_x" "replied"
          (update_comment_sentiment "t1_x" "positive"
            { posts := [⟨"t3_a", "T", "sub", "u", 5, "n1"⟩],
              comments := [commentRow ⟨"t1_x", "t3_a", some "al", "hi", 6, some "t3_a", some 2⟩ "n3"],
              scrape_log := [] })) ∧
    findComment
        (update_comment_reply_status "t1_x" "replied"
          (update_comment_sentiment "t1_x" "positive"
            { posts := [⟨"t3_a", "T", "sub", "u", 5, "n1"⟩],
              comments := [commentRow ⟨"t1_x", "t3_a", some "al", "hi", 6, some "t3_a", some 2⟩ "n3"],
              scrape_log := [] })) "t1_x" =
      some { commentRow ⟨"t1_x", "t3_a", some "al", "hi", 6, some "t3_a", some 2⟩ "n3" with
              sentiment := "positive", reply_status := "replied" } := by
  have h := claim_C1_idempotent_ingestion
    ⟨"t3_a", "T", "sub", "u", 5⟩ ⟨"t3_a", "T2", "s2", "u2", 7⟩
    ⟨"t1_x", "t3_a", some "al", "hi", 6, some "t3_a", some 2⟩
    ⟨"t1_x", "t3_b", none, "bye", 9, none, none⟩
    "positive" "replied" "n1" "n2" "n3" "n4"
    ⟨[], [], []⟩
    ⟨[⟨"t3_a", "T", "sub", "u", 5, "n1"⟩], [], []⟩
    rfl rfl (by decide) (by decide) (by decide)
    _ _ _ rfl rfl rfl
  exact ⟨h.2.2.2.1, h.2.2.2.2⟩

/-- **C2** (ordering invariant): inserting a genuinely new comment whose
`post_id` matches no inserted post fails with an integrity violation and
leaves the comments table unchanged; inserting the post with that ID
first makes the very same `insert_comment` call succeed with
`isNew = true`. -/
theorem claim_C2_ordering_invariant
    (c : CommentData) (p : PostData) (nowP nowC nowC2 : String) (db : DB)
    (hp : p.id = c.post_id)
    (hcFresh : c.id ∉ db.comments.map (fun r => r.id))
    (hNoPost : c.post_id ∉ db.posts.map (fun r => r.id)) :
    insert_comment c nowC db = (.error "FOREIGN KEY constraint failed", db) ∧
    insert_comment c nowC2 (insert_post p nowP db).2 =
      (.ok true,
       { db with
         posts := db.posts ++ [postRow p nowP]
         comments := db.comments ++ [commentRow c nowC2] }) := by
  have hCfresh := comment_any_id_eq_false db.comments c.id hcFresh
  have hNoP := post_any_id_eq_false db.posts c.post_id hNoPost
  constructor
  · simp [insert_comment, hCfresh, hNoP]
  · have hPfresh : db.posts.any (fun r => r.id == p.id) = false := by
      rw [hp]; exact hNoP
    have hstep : insert_post p nowP db =
        (true, { db with posts := db.posts ++ [postRow p nowP] }) := by
      simp [insert_post, hPfresh]
    rw [hstep]
    have hPostNow : (db.posts ++ [postRow p nowP]).any
        (fun r => r.id == c.post_id) = true := by
      simp [List.any_append, postRow, hp]
    simp [insert_comment, hCfresh, hPostNow]

/-- Witness for C2 at a concrete comment and post. -/
theorem claim_C2_ordering_invariant_witness :
    insert_comment ⟨"t1_x", "t3_a", some "al", "hi", 6, some "t3_a", some 2⟩
        "n1" ⟨[], [], []⟩ =
      (.error "FOREIGN KEY constraint failed", ⟨[], [], []⟩) ∧
    insert_comment ⟨"t1_x", "t3_a", some "al", "hi", 6, some "t3_a", some 2⟩
        "n3"
        (insert_post ⟨"t3_a", "T", "sub", "u", 5⟩ "n2" ⟨[], [], []⟩).2 =
      (.ok true,
       { posts := [postRow ⟨"t3_a", "T", "sub", "u", 5⟩ "n2"],
         comments := [commentRow ⟨"t1_x", "t3_a", some "al", "hi", 6, some "t3_a", some 2⟩ "n3"],
         scrape_log := [] }) := by
  have h := claim_C2_ordering_invariant
    ⟨"t1_x", "t3_a", some "al", "hi", 6, some "t3_a", some 2⟩
    ⟨"t3_a", "T", "sub", "u", 5⟩ "n2" "n1" "n3" ⟨[], [], []⟩
    rfl (by decide) (by decide)
  exact h

/-- **C5** (run lifecycle): when the selected strategy raises after
`log_scrape_start`, `run_scrape` leaves exactly one new run record,
terminal with `status = 'error'` and a non-null `error_message`, and
re-raises the exception; when the strategy returns, the same single
record ends with `status = 'success'` and the returned counts. -/
theorem claim_C5_run_lifecycle (e : String) (pf nc : Nat)
    (nowS nowE nowS2 nowE2 : String) (db db2 : DB) :
    run_scrape (.error e) nowS nowE db =
      (.error e,
       { db with scrape_log := db.scrape_log ++
          [{ id := nextLogId db, started_at := nowS,
             completed_at := some nowE, posts_found := 0,
             new_comments_found := 0, status := "error",
             error_message := some (blockHint e), email_sent := 0 }] }) ∧
    (some (blockHint e)).isSome = true ∧
    run_scrape (.ok (pf, nc)) nowS2 nowE2 db2 =
      (.ok (pf, nc),
       { db2 with scrape_log := db2.scrape_log ++
          [{ id := nextLogId db2, started_at := nowS2,
             completed_at := some nowE2, posts_found := pf,
             new_comments_found := nc, status := "success",
             error_message := none, email_sent := 0 }] }) := by
  refine ⟨?_, rfl, ?_⟩
  · have h := log_scrape_end_of_start nowS nowE "error" 0 0
      (some (blockHint e)) false db
    simp only [run_scrape]
    rw [h]
    simp
  · have h := log_scrape_end_of_start nowS2 nowE2 "success" pf nc
      none false db2
    simp only [run_scrape]
    rw [h]
    simp

/-- **C6** (discovery fallback): when the comment-history pages fit the
page walk (at most 5 pages, none empty, every non-final page carrying a
cursor), every comment is well-formed, and the comments mention exactly 3
distinct parent posts, `_discover_posts_from_comments` returns exactly 3
entries, keyed by parent-post external ID with the first occurrence of
each ID winning, and each entry's permalink is the comment's own
permalink truncated to its first five path segments. -/
theorem claim_C6_discovery_fallback (pages : List HistoryPage)
    (h5 : pages.length ≤ 5)
    (hne : ∀ p ∈ pages, p.children ≠ [])
    (hafter : ∀ p ∈ pages.dropLast, p.after.isSome)
    (hwf : ∀ c ∈ allComments pages,
      c.link_id ≠ "" ∧ 5 ≤ (permalinkParts c.permalink).length)
    (hcard : ((allComments pages).map (fun c => c.link_id)).toFinset.card = 3) :
    (discover_posts_from_comments pages).length = 3 ∧
    (∀ k info, (k, info) ∈ discover_posts_from_comments pages →
      ∃ c, (allComments pages).find? (fun x => x.link_id == k) = some c ∧
        info = mkInfo c ∧
        info.permalink =
          "/" ++ String.intercalate "/" ((permalinkParts c.permalink).take 5) ++ "/") := by
  have heq : discover_posts_from_comments pages =
      (allComments pages).foldl discoverStep [] := by
    unfold discover_posts_from_comments
    exact discoverLoop_eq_foldl pages 5 [] h5 hne hafter
  have hkeys : ((allComments pages).foldl discoverStep []).map Prod.fst =
      ((allComments pages).map (fun c => c.link_id)).foldl addKey [] := by
    have := foldl_discoverStep_keys (allComments pages) [] hwf
    simpa using this
  constructor
  · calc (discover_posts_from_comments pages).length
        = ((discover_posts_from_comments pages).map Prod.fst).length :=
          (List.length_map _ _).symm
      _ = (((allComments pages).map (fun c => c.link_id)).foldl addKey []).length := by
          rw [heq, hkeys]
      _ = ((allComments pages).map (fun c => c.link_id)).toFinset.card :=
          addKey_fold_nil_length _
      _ = 3 := hcard
  · intro k info hmem
    rw [heq] at hmem
    have hnodup : (((allComments pages).foldl discoverStep []).map Prod.fst).Nodup := by
      rw [hkeys]
      exact addKey_fold_nodup _ [] (by simp)
    have hlook := dictLookup_of_mem_nodup _ hnodup k info hmem
    have hfold := foldl_discoverStep_none (allComments pages) [] k hwf rfl
    rw [hfold] at hlook
    rcases hfind : (allComments pages).find? (fun x => x.link_id == k) with _ | c
    · rw [hfind] at hlook
      simp at hlook
    · rw [hfind] at hlook
      simp only [Option.map_some'] at hlook
      refine ⟨c, hfind, (Option.some.inj hlook).symm, ?_⟩
      rw [← Option.some.inj hlook]
      rfl

/-- Witness for C6: two history pages whose four comments mention exactly
the three parent posts `t3_p1`, `t3_p2`, `t3_p3`. -/
theorem claim_C6_discovery_fallback_witness :
    (discover_posts_from_comments
      [⟨[⟨"t3_p1", "/r/s/comments/p1/slug/c1/", "ti1", "su"⟩,
         ⟨"t3_p2", "/r/s/comments/p2/slug/c2/", "ti2", "su"⟩], some "cur"⟩,
       ⟨[⟨"t3_p1", "/r/s/comments/p1/slug/c9/", "ti9", "su"⟩,
         ⟨"t3_p3", "/r/s/comments/p3/slug/c3/", "ti3", "su"⟩], none⟩]).length = 3 ∧
    (∀ k info, (k, info) ∈ discover_posts_from_comments
      [⟨[⟨"t3_p1", "/r/s/comments/p1/slug/c1/", "ti1", "su"⟩,
         ⟨"t3_p2", "/r/s/comments/p2/slug/c2/", "ti2", "su"⟩], some "cur"⟩,
       ⟨[⟨"t3_p1", "/r/s/comments/p1/slug/c9/", "ti9", "su"⟩,
         ⟨"t3_p3", "/r/s/comments/p3/slug/c3/", "ti3", "su"⟩], none⟩] →
      ∃ c, (allComments
        [⟨[⟨"t3_p1", "/r/s/comments/p1/slug/c1/", "ti1", "su"⟩,
           ⟨"t3_p2", "/r/s/comments/p2/slug/c2/", "ti2", "su"⟩], some "cur"⟩,
         ⟨[⟨"t3_p1", "/r/s/comments/p1/slug/c9/", "ti9", "su"⟩,
           ⟨"t3_p3", "/r/s/comments/p3/slug/c3/", "ti3", "su"⟩], none⟩]).find?
          (fun x => x.link_id == k) = some c ∧
        info = mkInfo c ∧
        info.permalink =
          "/" ++ String.intercalate "/" ((permalinkParts c.permalink).take 5) ++ "/") := by
  exact claim_C6_discovery_fallback
    [⟨[⟨"t3_p1", "/r/s/comments/p1/slug/c1/", "ti1", "su"⟩,
       ⟨"t3_p2", "/r/s/comments/p2/slug/c2/", "ti2", "su"⟩], some "cur"⟩,
     ⟨[⟨"t3_p1", "/r/s/comments/p1/slug/c9/", "ti9", "su"⟩,
       ⟨"t3_p3", "/r/s/comments/p3/slug/c3/", "ti3", "su"⟩], none⟩]
    (by decide) (by decide) (by decide) (by decide) (by decide)

/-- **C7 counterexample**: over a literally empty store the crawl of the
3-level fixture tree (5 comments, one "more" stub) does not insert 5
comments: the very first `insert_comment` hits the `post_id` foreign key
(no post row exists) and the crawl aborts with the integrity error,
storing nothing. -/
theorem claim_C7_counterexample :
    (processComments "t3_P" "n1"
      [.node "t1" "t1_c1" (some "a") (some "b1") 1 (some "t3_P") (some 1)
         [.node "t1" "t1_c2" (some "a") (some "b2") 2 (some "t1_c1") (some 1)
            [.node "t1" "t1_c3" (some "a") (some "b3") 3 (some "t1_c2") (some 1) []],
          .node "more" "t1_more" none none 0 none none []],
       .node "t1" "t1_c4" (some "a") (some "b4") 4 (some "t3_P") (some 1) [],
       .node "t1" "t1_c5" (some "a") (some "b5") 5 (some "t3_P") (some 1) []]
      ⟨[], [], []⟩).1 = .error "FOREIGN KEY constraint failed" ∧
    (processComments "t3_P" "n1"
      [.node "t1" "t1_c1" (some "a") (some "b1") 1 (some "t3_P") (some 1)
         [.node "t1" "t1_c2" (some "a") (some "b2") 2 (some "t1_c1") (some 1)
            [.node "t1" "t1_c3" (some "a") (some "b3") 3 (some "t1_c2") (some 1) []],
          .node "more" "t1_more" none none 0 none none []],
       .node "t1" "t1_c4" (some "a") (some "b4") 4 (some "t3_P") (some 1) [],
       .node "t1" "t1_c5" (some "a") (some "b5") 5 (some "t3_P") (some 1) []]
      ⟨[], [], []⟩).2.comments = [] := ⟨rfl, rfl⟩

/-- **C7 amended** (crawler completeness): over a store whose comments
table is empty and that already holds the post being crawled, and a reply
tree whose `t1` names are distinct, `_process_comments` skips every
non-`t1` node (they produce no stored record), inserts every `t1` comment
with the post ID passed to the crawl, descends nested replies depth-first
with a parent inserted before its children, and returns exactly the
number of newly inserted comments — 5 for the fixture tree. -/
theorem claim_C7_crawler (postId now : String) (nodes : List RNode) (db : DB)
    (hpost : postId ∈ postIds db) (hempty : db.comments = [])
    (hnodup : ((listFlat nodes).map RNode.name).Nodup) :
    processComments postId now nodes db =
      (.ok (listFlat nodes).length,
       { db with comments :=
          (listFlat nodes).map (fun m => commentRow (nodeData postId m) now) }) := by
  have h := processComments_spec postId now nodes db hpost hnodup
    (by intro m hm; simp [commentIds, hempty])
  rw [h]
  simp [hempty]

/-- Witness for C7 (amended) at the 3-level fixture tree: exactly the 5
`t1` comments are stored, in depth-first order, all under `t3_P`, and the
"more" stub leaves no record. -/
theorem claim_C7_crawler_witness :
    processComments "t3_P" "n0"
      [.node "t1" "t1_c1" (some "a") (some "b1") 1 (some "t3_P") (some 1)
         [.node "t1" "t1_c2" (some "a") (some "b2") 2 (some "t1_c1") (some 1)
            [.node "t1" "t1_c3" (some "a") (some "b3") 3 (some "t1_c2") (some 1) []],
          .node "more" "t1_more" none none 0 none none []],
       .node "t1" "t1_c4" (some "a") (some "b4") 4 (some "t3_P") (some 1) [],
       .node "t1" "t1_c5" (some "a") (some "b5") 5 (some "t3_P") (some 1) []]
      ⟨[⟨"t3_P", "T", "s", "u", 0, "n"⟩], [], []⟩ =
      (.ok 5,
       ⟨[⟨"t3_P", "T", "s", "u", 0, "n"⟩],
        [⟨"t1_c1", "t3_P", "a", "b1", 1, some "t3_P", 1, "n0", "neutral", "needs_reply"⟩,
         ⟨"t1_c2", "t3_P", "a", "b2", 2, some "t1_c1", 1, "n0", "neutral", "needs_reply"⟩,
         ⟨"t1_c3", "t3_P", "a", "b3", 3, some "t1_c2", 1, "n0", "neutral", "needs_reply"⟩,
         ⟨"t1_c4", "t3_P", "a", "b4", 4, some "t3_P", 1, "n0", "neutral", "needs_reply"⟩,
         ⟨"t1_c5", "t3_P", "a", "b5", 5, some "t3_P", 1, "n0", "neutral", "needs_reply"⟩],
        []⟩) := by
  have h := claim_C7_crawler "t3_P" "n0"
    [.node "t1" "t1_c1" (some "a") (some "b1") 1 (some "t3_P") (some 1)
       [.node "t1" "t1_c2" (some "a") (some "b2") 2 (some "t1_c1") (some 1)
          [.node "t1" "t1_c3" (some "a") (some "b3") 3 (some "t1_c2") (some 1) []],
        .node "more" "t1_more" none none 0 none none []],
     .node "t1" "t1_c4" (some "a") (some "b4") 4 (some "t3_P") (some 1) [],
     .node "t1" "t1_c5" (some "a") (some "b5") 5 (some "t3_P") (some 1) []]
    ⟨[⟨"t3_P", "T", "s", "u", 0, "n"⟩], [], []⟩
    (by decide) rfl (by decide)
  exact h

/-- **C3 counterexample**: the claim says a second application of the same
batch returns `posts_synced` and `new_comments` counts of zero or
near-zero. For a batch of ten posts the second application succeeds, but
its `posts_synced` is 10 — `api_sync_upload` answers `len(posts)`, the
batch size, not the number of newly inserted posts. -/
theorem claim_C3_counterexample :
    (api_sync_upload
      [⟨"t3_p0", "T0", "s", "u", 0⟩, ⟨"t3_p1", "T1", "s", "u", 0⟩,
       ⟨"t3_p2", "T2", "s", "u", 0⟩, ⟨"t3_p3", "T3", "s", "u", 0⟩,
       ⟨"t3_p4", "T4", "s", "u", 0⟩, ⟨"t3_p5", "T5", "s", "u", 0⟩,
       ⟨"t3_p6", "T6", "s", "u", 0⟩, ⟨"t3_p7", "T7", "s", "u", 0⟩,
       ⟨"t3_p8", "T8", "s", "u", 0⟩, ⟨"t3_p9", "T9", "s", "u", 0⟩] [] "s2" "e2"
      (api_sync_upload
        [⟨"t3_p0", "T0", "s", "u", 0⟩, ⟨"t3_p1", "T1", "s", "u", 0⟩,
         ⟨"t3_p2", "T2", "s", "u", 0⟩, ⟨"t3_p3", "T3", "s", "u", 0⟩,
         ⟨"t3_p4", "T4", "s", "u", 0⟩, ⟨"t3_p5", "T5", "s", "u", 0⟩,
         ⟨"t3_p6", "T6", "s", "u", 0⟩, ⟨"t3_p7", "T7", "s", "u", 0⟩,
         ⟨"t3_p8", "T8", "s", "u", 0⟩, ⟨"t3_p9", "T9", "s", "u", 0⟩] [] "s1" "e1"
        ⟨[], [], []⟩).2).1 = .ok (10, 0) ∧
    ¬ (10 : Nat) ≤ 2 := by
  exact ⟨rfl, by decide⟩

/-- **C3 amended** (sync merge retryability): whenever every uploaded
comment references a post in the batch or already in the store, applying
the same batch a second time against the state left by the first
application succeeds (is not an error) and returns `new_comments = 0`;
`posts_synced` equals the size of the uploaded posts list on both
applications, because it reports batch size rather than new insertions. -/
theorem claim_C3_sync_merge_retry
    (posts : List PostData) (comments : List SyncCommentData)
    (nowS nowE nowS2 nowE2 : String) (db : DB)
    (hfk : ∀ c ∈ comments,
      c.data.post_id ∈ posts.map PostData.id ∨ c.data.post_id ∈ postIds db) :
    ∃ n1 db1,
      api_sync_upload posts comments nowS nowE db = (.ok (posts.length, n1), db1) ∧
      ∃ db2, api_sync_upload posts comments nowS2 nowE2 db1 =
        (.ok (posts.length, 0), db2) := by
  obtain ⟨hf1c, hf1s, hf1sub, hf1mem⟩ :=
    sync_posts_fold nowS posts ((log_scrape_start nowS db).2)
  have hcomHyp : ∀ c ∈ comments, c.data.post_id ∈
      postIds (posts.foldl (fun d p => (insert_post p nowS d).2)
        ((log_scrape_start nowS db).2)) := by
    intro c hc
    rcases hfk c hc with hbatch | hold
    · rcases List.mem_map.mp hbatch with ⟨p, hp, hpid⟩
      rw [← hpid]
      exact hf1mem p hp
    · exact hf1sub _ (by simpa [postIds, log_scrape_start_posts] using hold)
  obtain ⟨n, dC, heqC, hpC, hsC, hsubC, hallC⟩ :=
    syncInsertComments_ok nowS comments 0 _ hcomHyp
  have happ1 : api_sync_upload posts comments nowS nowE db =
      (.ok (posts.length, n),
       log_scrape_end (log_scrape_start nowS db).1 posts.length n
         "success" none false nowE dC) := by
    simp only [api_sync_upload]
    rw [heqC]
  refine ⟨n, _, happ1, ?_⟩
  obtain ⟨hf2c, hf2s, hf2sub, hf2mem⟩ :=
    sync_posts_fold nowS2 posts
      ((log_scrape_start nowS2
        (log_scrape_end (log_scrape_start nowS db).1 posts.length n
          "success" none false nowE dC)).2)
  have hknown : ∀ c ∈ comments, c.data.id ∈
      commentIds (posts.foldl (fun d p => (insert_post p nowS2 d).2)
        ((log_scrape_start nowS2
          (log_scrape_end (log_scrape_start nowS db).1 posts.length n
            "success" none false nowE dC)).2)) := by
    intro c hc
    have hcomments : (posts.foldl (fun d p => (insert_post p nowS2 d).2)
        ((log_scrape_start nowS2
          (log_scrape_end (log_scrape_start nowS db).1 posts.length n
            "success" none false nowE dC)).2)).comments = dC.comments := by
      rw [hf2c]
      rfl
    have : commentIds (posts.foldl (fun d p => (insert_post p nowS2 d).2)
        ((log_scrape_start nowS2
          (log_scrape_end (log_scrape_start nowS db).1 posts.length n
            "success" none false nowE dC)).2)) = commentIds dC := by
      simp only [commentIds, hcomments]
    rw [this]
    exact hallC c hc
  obtain ⟨d2, heq2, _, _, _⟩ := syncInsertComments_known nowS2 comments 0 _ hknown
  exact ⟨_, by simp only [api_sync_upload]; rw [heq2]⟩

/-- Witness for C3 (amended) at a one-post, one-comment batch over an
empty store. -/
theorem claim_C3_sync_merge_retry_witness :
    ∃ n1 db1,
      api_sync_upload [⟨"t3_a", "T", "sub", "u", 5⟩]
          [⟨⟨"t1_x", "t3_a", some "al", "hi", 6, some "t3_a", some 2⟩, none⟩]
          "s1" "e1" ⟨[], [], []⟩ = (.ok (1, n1), db1) ∧
      ∃ db2, api_sync_upload [⟨"t3_a", "T", "sub", "u", 5⟩]
          [⟨⟨"t1_x", "t3_a", some "al", "hi", 6, some "t3_a", some 2⟩, none⟩]
          "s2" "e2" db1 = (.ok (1, 0), db2) := by
  exact claim_C3_sync_merge_retry
    [⟨"t3_a", "T", "sub", "u", 5⟩]
    [⟨⟨"t1_x", "t3_a", some "al", "hi", 6, some "t3_a", some 2⟩, none⟩]
    "s1" "e1" "s2" "e2" ⟨[], [], []⟩ (by decide)

/-- **C4** (sync merge reconciliation): uploading a comment that already
exists in the store with a `reply_status` override other than the default
`needs_reply` applies the override to the stored comment even though
`insert_comment` returns `isNew = false` for it (the upload reports
`new_comments = 0`); all other fields of the stored row are untouched. -/
theorem claim_C4_sync_status_override
    (c : SyncCommentData) (rs : String) (row : CommentRow)
    (nowS nowE : String) (db : DB)
    (hrs : c.reply_status = some rs) (h1 : rs ≠ "") (h2 : rs ≠ "needs_reply")
    (hrow : findComment db c.data.id = some row) :
    (api_sync_upload [] [c] nowS nowE db).1 = .ok (0, 0) ∧
    findComment (api_sync_upload [] [c] nowS nowE db).2 c.data.id =
      some { row with reply_status := rs } := by
  have hmem : c.data.id ∈ db.comments.map (fun r => r.id) := by
    have := List.mem_of_find?_eq_some hrow
    exact List.mem_map.mpr ⟨row, this, by
      have := List.find?_some hrow
      simpa [beq_iff_eq] using this.symm⟩
  have hAny : db.comments.any (fun r => r.id == c.data.id) = true :=
    (comment_any_id_iff _ _).mpr hmem
  have hIns : insert_comment c.data nowS ((log_scrape_start nowS db).2) =
      (.ok false, (log_scrape_start nowS db).2) := by
    simp [insert_comment, log_scrape_start, hAny]
  have hOv : syncOverride c.reply_status = true := by
    simp [syncOverride, hrs, h1, h2]
  have hOv2 : syncOverride (some rs) = true := by
    rw [← hrs]; exact hOv
  constructor
  · simp [api_sync_upload, syncInsertComments, hIns, hOv]
  · simp only [api_sync_upload, List.foldl_nil, syncInsertComments, hIns, hOv,
      hrs, Option.getD_some, if_true]
    simp only [findComment, log_scrape_end_comments]
    have hthis := findComment_update_reply_status c.data.id rs
      ((log_scrape_start nowS db).2)
    simp only [findComment, log_scrape_start_comments] at hthis
    have hAO : applyOverride c ((log_scrape_start nowS db).2) =
        update_comment_reply_status c.data.id rs ((log_scrape_start nowS db).2) := by
      simp [applyOverride, hrs, hOv2]
    rw [hAO, hthis]
    simp only [findComment] at hrow
    rw [hrow]
    rfl

/-- Witness for C4: a store holding one post and one comment whose
`reply_status` is the default, and an upload of that same comment carrying
the `"replied"` override. -/
theorem claim_C4_sync_status_override_witness :
    (api_sync_upload []
        [⟨⟨"t1_x", "t3_a", some "al", "hi", 6, some "t3_a", some 2⟩, some "replied"⟩]
        "s" "e"
        { posts := [⟨"t3_a", "T", "sub", "u", 5, "n1"⟩],
          comments := [commentRow ⟨"t1_x", "t3_a", some "al", "hi", 6, some "t3_a", some 2⟩ "n2"],
          scrape_log := [] }).1 = .ok (0, 0) ∧
    findComment
        (api_sync_upload []
          [⟨⟨"t1_x", "t3_a", some "al", "hi", 6, some "t3_a", some 2⟩, some "replied"⟩]
          "s" "e"
          { posts := [⟨"t3_a", "T", "sub", "u", 5, "n1"⟩],
            comments := [commentRow ⟨"t1_x", "t3_a", some "al", "hi", 6, some "t3_a", some 2⟩ "n2"],
            scrape_log := [] }).2 "t1_x" =
      some { commentRow ⟨"t1_x", "t3_a", some "al", "hi", 6, some "t3_a", some 2⟩ "n2" with
              reply_status := "replied" } := by
  exact claim_C4_sync_status_override
    ⟨⟨"t1_x", "t3_a", some "al", "hi", 6, some "t3_a", some 2⟩, some "replied"⟩
    "replied"
    (commentRow ⟨"t1_x", "t3_a", some "al", "hi", 6, some "t3_a", some 2⟩ "n2")
    "s" "e"
    { posts := [⟨"t3_a", "T", "sub", "u", 5, "n1"⟩],
      comments := [commentRow ⟨"t1_x", "t3_a", some "al", "hi", 6, some "t3_a", some 2⟩ "n2"],
      scrape_log := [] }
    rfl (by decide) (by decide) (by decide)

/-- **C8** (block fallback): when the first (old.reddit.com) variant
answers 403 and the second (www) answers 200, the fetch abandons the
first variant after a single request — no retry — proceeds to the second
variant in the fixed preference order, and returns its parsed payload.
When every variant exhausts its attempts (all 429), the fetch raises the
generic all-endpoints error; when a 403 was captured last, it raises that
captured error. -/
theorem claim_C8_block_fallback
    (http http2 http3 : String → Nat → HttpResp) (url p q q1 q2 q3 : String)
    (hw : containsSub url "www.reddit.com" = true)
    (h403 : http (strReplace url "www.reddit.com" "old.reddit.com") 0 =
      .status 403 q)
    (h200 : http url 0 = .status 200 p)
    (hall : ∀ a, a < 3 →
      http2 (strReplace url "www.reddit.com" "old.reddit.com") a = .status 429 q1 ∧
      http2 url a = .status 429 q2)
    (hlast1 : ∀ a, a < 3 →
      http3 (strReplace url "www.reddit.com" "old.reddit.com") a = .status 429 q1)
    (hlast2 : http3 url 0 = .status 403 q3) :
    fetch_json http url 3 =
      { trace := [strReplace url "www.reddit.com" "old.reddit.com", url],
        backoff := 0, outcome := .ok p } ∧
    (fetch_json http2 url 3).outcome =
      .error (.http "All Reddit endpoints returned errors") ∧
    (fetch_json http3 url 3).outcome =
      .error (.http ("403 Client Error: Blocked for url: " ++ url)) := by
  refine ⟨?_, ?_, ?_⟩
  · simp [fetch_json, urlsToTry, hw, tryVariants, tryAttempts, h403, h200]
  · have h0 := hall 0 (by omega)
    have h1 := hall 1 (by omega)
    have h2 := hall 2 (by omega)
    simp [fetch_json, urlsToTry, hw, tryVariants, tryAttempts,
      h0.1, h0.2, h1.1, h1.2, h2.1, h2.2]
  · have h0 := hlast1 0 (by omega)
    have h1 := hlast1 1 (by omega)
    have h2 := hlast1 2 (by omega)
    simp [fetch_json, urlsToTry, hw, tryVariants, tryAttempts,
      h0, h1, h2, hlast2]

/-- Witness for C8 with concrete oracles on a short URL. -/
theorem claim_C8_block_fallback_witness :
    fetch_json
        (fun u _ => if u == "old.reddit.com/u" then HttpResp.status 403 "x"
          else HttpResp.status 200 "PAY")
        "www.reddit.com/u" 3 =
      { trace := [strReplace "www.reddit.com/u" "www.reddit.com" "old.reddit.com",
          "www.reddit.com/u"],
        backoff := 0, outcome := .ok "PAY" } ∧
    (fetch_json (fun _ _ => HttpResp.status 429 "r") "www.reddit.com/u" 3).outcome =
      .error (.http "All Reddit endpoints returned errors") ∧
    (fetch_json
        (fun u _ => if u == "old.reddit.com/u" then HttpResp.status 429 "r"
          else HttpResp.status 403 "x")
        "www.reddit.com/u" 3).outcome =
      .error (.http ("403 Client Error: Blocked for url: " ++ "www.reddit.com/u")) := by
  exact claim_C8_block_fallback
    (fun u _ => if u == "old.reddit.com/u" then HttpResp.status 403 "x"
      else HttpResp.status 200 "PAY")
    (fun _ _ => HttpResp.status 429 "r")
    (fun u _ => if u == "old.reddit.com/u" then HttpResp.status 429 "r"
      else HttpResp.status 403 "x")
    "www.reddit.com/u" "PAY" "x" "r" "r" "x"
    (by decide) (by decide) (by decide) (by decide) (by decide) (by decide)

/-- **C9** (retry/backoff): a single-variant fetch whose responses are
429, 429, then 200 succeeds on the third attempt of the same variant
(within the retry ceiling of 3) and sleeps exactly the two escalating
backoff windows `10·(0+1)` and `10·(1+1)` seconds — so the total backoff
is at least their sum. -/
theorem claim_C9_retry_backoff
    (http : String → Nat → HttpResp) (url p q0 q1 : String)
    (hnw : containsSub url "www.reddit.com" = false)
    (h0 : http url 0 = .status 429 q0)
    (h1 : http url 1 = .status 429 q1)
    (h2 : http url 2 = .status 200 p) :
    fetch_json http url 3 =
      { trace := [url, url, url], backoff := 10 * (0 + 1) + 10 * (1 + 1),
        outcome := .ok p } ∧
    10 * (0 + 1) + 10 * (1 + 1) ≤ (fetch_json http url 3).backoff := by
  have hmain : fetch_json http url 3 =
      { trace := [url, url, url], backoff := 10 * (0 + 1) + 10 * (1 + 1),
        outcome := .ok p } := by
    simp [fetch_json, urlsToTry, hnw, tryVariants, tryAttempts, h0, h1, h2]
  exact ⟨hmain, by rw [hmain]⟩

/-- Witness for C9 with a concrete oracle answering 429, 429, 200. -/
theorem claim_C9_retry_backoff_witness :
    fetch_json
        (fun _ a => if a < 2 then HttpResp.status 429 "r"
          else HttpResp.status 200 "PAY")
        "example.com/u" 3 =
      { trace := ["example.com/u", "example.com/u", "example.com/u"],
        backoff := 10 * (0 + 1) + 10 * (1 + 1), outcome := .ok "PAY" } ∧
    10 * (0 + 1) + 10 * (1 + 1) ≤
      (fetch_json
        (fun _ a => if a < 2 then HttpResp.status 429 "r"
          else HttpResp.status 200 "PAY")
        "example.com/u" 3).backoff := by
  exact claim_C9_retry_backoff
    (fun _ a => if a < 2 then HttpResp.status 429 "r"
      else HttpResp.status 200 "PAY")
    "example.com/u" "PAY" "r" "r"
    (by decide) (by decide) (by decide) (by decide)

/-- **C10** (fatal statuses propagate): an HTTP error status other than
429 and 403 (e.g. 404 or 500) raises out of `raise_for_status` uncaught:
the fetch stops after that single request — the remaining attempts of the
variant and the remaining variants are never tried — and the error
propagates to the caller. By contrast a connection failure on the first
variant falls through to the second variant, which can still succeed. -/
theorem claim_C10_fatal_status
    (http http2 : String → Nat → HttpResp) (url p q m : String) (code : Nat)
    (hw : containsSub url "www.reddit.com" = true)
    (hge : 400 ≤ code) (hlt : code < 600)
    (h429 : code ≠ 429) (h403 : code ≠ 403)
    (hresp : http (strReplace url "www.reddit.com" "old.reddit.com") 0 =
      .status code q)
    (hconn : http2 (strReplace url "www.reddit.com" "old.reddit.com") 0 =
      .connError m)
    (h200 : http2 url 0 = .status 200 p) :
    fetch_json http url 3 =
      { trace := [strReplace url "www.reddit.com" "old.reddit.com"],
        backoff := 0,
        outcome := .error (.http (toString code ++ " Error for url: " ++
          strReplace url "www.reddit.com" "old.reddit.com")) } ∧
    fetch_json http2 url 3 =
      { trace := [strReplace url "www.reddit.com" "old.reddit.com", url],
        backoff := 0, outcome := .ok p } := by
  have hb429 : (code == 429) = false := by
    cases hb : code == 429 with
    | false => rfl
    | true => exact absurd (beq_iff_eq.mp hb) h429
  have hb403 : (code == 403) = false := by
    cases hb : code == 403 with
    | false => rfl
    | true => exact absurd (beq_iff_eq.mp hb) h403
  constructor
  · simp [fetch_json, urlsToTry, hw, tryVariants, tryAttempts, hresp,
      hb429, hb403, hge, hlt]
  · simp [fetch_json, urlsToTry, hw, tryVariants, tryAttempts, hconn, h200]

/-- Witness for C10: a 404 on the first variant propagates immediately; a
connection error on the first variant falls through to the second. -/
theorem claim_C10_fatal_status_witness :
    fetch_json
        (fun u _ => if u == "old.reddit.com/u" then HttpResp.status 404 "x"
          else HttpResp.status 200 "PAY")
        "www.reddit.com/u" 3 =
      { trace := [strReplace "www.reddit.com/u" "www.reddit.com" "old.reddit.com"],
        backoff := 0,
        outcome := .error (.http (toString 404 ++ " Error for url: " ++
          strReplace "www.reddit.com/u" "www.reddit.com" "old.reddit.com")) } ∧
    fetch_json
        (fun u _ => if u == "old.reddit.com/u" then HttpResp.connError "boom"
          else HttpResp.status 200 "PAY")
        "www.reddit.com/u" 3 =
      { trace := [strReplace "www.reddit.com/u" "www.reddit.com" "old.reddit.com",
          "www.reddit.com/u"],
        backoff := 0, outcome := .ok "PAY" } := by
  exact claim_C10_fatal_status
    (fun u _ => if u == "old.reddit.com/u" then HttpResp.status 404 "x"
      else HttpResp.status 200 "PAY")
    (fun u _ => if u == "old.reddit.com/u" then HttpResp.connError "boom"
      else HttpResp.status 200 "PAY")
    "www.reddit.com/u" "PAY" "x" "boom" 404
    (by decide) (by decide) (by decide) (by decide) (by decide)
    (by decide) (by decide) (by decide)

end Tracker
